import Mathlib

/-!
Verification development for the ai-fdocs documentation-mirroring engine
(`cargo-ai-fdocs`, Node implementation `npn`).

The definitions below are shallow embeddings of the TypeScript sources:

* `src/npn/src/net.ts` (copy in `consolidation.ts`): `classifyHttpError`,
  `fetchWithRetry` and the default retry status set;
* `src/npn/src/fetcher.ts`: `GitHubClient.resolveRef`, `refExists`,
  `fetchRaw`, `fetchExplicitFiles`;
* `src/npn/src/storage.ts` (copy in `part_009`): `flattenFilename`,
  `injectHeader`, `truncateIfNeeded`, `parseMetaToml`, `isCachedV2`,
  `savePackageFiles`, `prune`;
* `src/npn/src/config-hash.ts` (copy in `part_011`): `computeConfigHash`
  with `normalizeSubpath` and `normalizeFiles`;
* `src/npn/src/changelog.ts`: `truncateChangelog`;
* `src/npn/src/commands/sync.ts`: the GitHub-primary fetch step with its
  npm-tarball fallback.

Strings are modelled by Lean `String`, with all character processing done on
the underlying `List Char` so that every definition evaluates inside the
kernel.  The file system is modelled as an association list of
`path ↦ content` pairs; HTTP is modelled as an oracle `String → HttpResp`
mapping a URL to the (final) response, and the attempt-indexed oracle
`Nat → FetchOutcome` for the retry loop.  JavaScript string truthiness
(empty string is falsy) is modelled explicitly where the source relies
on it.
-/

/-- JavaScript `a || b` for strings: `a` unless it is falsy (empty). -/
def jsOrStr (a b : String) : String := if a = "" then b else a

/-- JavaScript `a || b` where `a` is `string | undefined`:
`undefined` and the empty string are falsy. -/
def jsOrOpt (a b : Option String) : Option String :=
  match a with
  | none => b
  | some s => if s = "" then b else some s

/-- Substring test on character lists (JavaScript `String.prototype.includes`). -/
def listContainsSub (needle : List Char) : List Char → Bool
  | [] => needle.isEmpty
  | c :: rest => needle.isPrefixOf (c :: rest) || listContainsSub needle rest

/-- Model of `hay.includes(needle)` on Lean strings. -/
def strContainsSub (needle hay : String) : Bool :=
  listContainsSub needle.data hay.data

/-- ASCII `toLowerCase` (the source only ever lowercases ASCII paths). -/
def lowerStr (s : String) : String := String.mk (s.data.map Char.toLower)

/-- ASCII `toUpperCase`. -/
def upperStr (s : String) : String := String.mk (s.data.map Char.toUpper)

/-- Remove the first occurrence of `pat` (JavaScript `s.replace(pat, "")`
with a string pattern); the string is unchanged when `pat` does not occur. -/
def removeFirstOcc (pat : List Char) : List Char → List Char
  | [] => []
  | c :: rest =>
    if pat.isPrefixOf (c :: rest) ∧ pat ≠ [] then (c :: rest).drop pat.length
    else c :: removeFirstOcc pat rest

/-- Model of `s.replace("refs/tags/", "")` from `resolveRef`. -/
def stripRefsTags (s : String) : String :=
  String.mk (removeFirstOcc "refs/tags/".data s.data)

/-- Model of `ref.replace(/^refs\//, "")` from `refExists`: drop one leading `refs/`. -/
def stripLeadingRefs (s : String) : String :=
  if "refs/".data.isPrefixOf s.data then String.mk (s.data.drop 5) else s

/-- Decimal representation of a `Nat`, kernel-reduction friendly. -/
def natReprAux : Nat → Nat → List Char
  | _, 0 => []
  | 0, _ => []
  | n, fuel + 1 =>
    if n < 10 then [Char.ofNat (48 + n)]
    else natReprAux (n / 10) fuel ++ [Char.ofNat (48 + n % 10)]

/-- Decimal representation of a `Nat` (JavaScript number-to-string for the
non-negative integers that appear in the sources). -/
def natRepr (n : Nat) : String :=
  if n = 0 then "0" else String.mk (natReprAux n (n + 1))

/-! Section net.ts : error classification and fetchWithRetry -/

/-- Model of `classifyHttpError` from `net.ts`. -/
def classifyHttpError (status : Nat) : String :=
  if status = 401 ∨ status = 403 then "auth"
  else if status = 404 then "not_found"
  else if status = 429 then "rate_limit"
  else if 500 ≤ status then "server"
  else "unknown"

/-- Model of `DEFAULT_RETRY_STATUSES` from `net.ts`. -/
def DEFAULT_RETRY_STATUSES : List Nat := [408, 425, 429, 500, 502, 503, 504]

/-- Outcome of one `fetch` attempt: an HTTP status, or a thrown
network/connect error. -/
inductive FetchOutcome where
  | status (s : Nat)
  | thrown
deriving DecidableEq

/-- Decidable equality for `Except`, used to evaluate models on concrete
inputs. -/
instance {ε α : Type} [DecidableEq ε] [DecidableEq α] : DecidableEq (Except ε α) := fun a b =>
  match a, b with
  | .ok x, .ok y => if h : x = y then .isTrue (by rw [h]) else .isFalse (by simp [h])
  | .error x, .error y => if h : x = y then .isTrue (by rw [h]) else .isFalse (by simp [h])
  | .ok _, .error _ => .isFalse (by simp)
  | .error _, .ok _ => .isFalse (by simp)

/-- Observable behaviour of one `fetchWithRetry` call: the returned status
(or the `NETWORK` error), the backoff delays slept between attempts, and the
number of `fetch` attempts made. -/
structure RetryRun where
  result : Except String Nat
  delays : List Nat
  used : Nat
deriving DecidableEq

/-- The attempt loop of `fetchWithRetry` (`for (let i = 0; i < attempts; i++)`),
over an oracle giving each attempt's outcome.  `fuel` is an upper bound on the
remaining iterations so that the recursion is structural; callers pass
`fuel = attempts`. -/
def fetchRetryAux (oracle : Nat → FetchOutcome) (attempts baseDelayMs : Nat)
    (retryOnStatuses : List Nat) : Nat → Nat → RetryRun
  | _, 0 => ⟨.error "NETWORK", [], 0⟩
  | i, fuel + 1 =>
    if i < attempts then
      match oracle i with
      | .status s =>
        if !(retryOnStatuses.contains s) || i == attempts - 1 then
          ⟨.ok s, [], i + 1⟩
        else
          let r := fetchRetryAux oracle attempts baseDelayMs retryOnStatuses (i + 1) fuel
          ⟨r.result, baseDelayMs * 2 ^ i :: r.delays, r.used⟩
      | .thrown =>
        if i == attempts - 1 then ⟨.error "NETWORK", [], i + 1⟩
        else
          let r := fetchRetryAux oracle attempts baseDelayMs retryOnStatuses (i + 1) fuel
          ⟨r.result, baseDelayMs * 2 ^ i :: r.delays, r.used⟩
    else ⟨.error "NETWORK", [], i⟩

/-- Model of `fetchWithRetry(url, init)` with the default options of `net.ts`:
`attempts = 3`, `baseDelayMs = 250`, `retryOnStatuses = DEFAULT_RETRY_STATUSES`. -/
def fetchWithRetryDefault (oracle : Nat → FetchOutcome) : RetryRun :=
  fetchRetryAux oracle 3 250 DEFAULT_RETRY_STATUSES 0 3

/-- An attempt outcome on which `fetchWithRetry` retries (when attempts
remain): a thrown error, or a status in the retry set. -/
def retriableOutcome : FetchOutcome → Bool
  | .thrown => true
  | .status s => DEFAULT_RETRY_STATUSES.contains s

/-! Section storage.ts : prune -/

/-- One entry of the output root as seen by `readdirSync` + `statSync`. -/
structure DirEntry where
  name : String
  isDir : Bool
deriving DecidableEq

/-- Model of `entry.lastIndexOf("@")` (-1 when absent), via a left fold over the
characters. -/
def lastIndexOfAtAux : List Char → Nat → Int → Int
  | [], _, acc => acc
  | c :: r, i, acc => lastIndexOfAtAux r (i + 1) (if c = '@' then (i : Int) else acc)

/-- Model of `entry.lastIndexOf("@")`. -/
def lastIndexOfAt (s : String) : Int := lastIndexOfAtAux s.data 0 (-1)

/-- Lookup in an association list (models `Map.get` / record indexing). -/
def lookupAssoc (m : List (String × String)) (k : String) : Option String :=
  (m.find? (fun e => e.1 = k)).map (fun e => e.2)

/-- The per-entry decision of `prune` (`storage.ts`): a non-directory or an
entry whose name has no `@` at an index greater than 0 is skipped; otherwise
the entry name is returned for removal when its package is not configured,
or the (truthy) lock version does not equal the version part of the name.
`packages` is the list of configured package names (`config.packages`
keys); `lock` is the `lockVersions` map. -/
def pruneCheck (packages : List String) (lock : List (String × String))
    (e : DirEntry) : Option String :=
  if !e.isDir then none
  else
    let atIdx := lastIndexOfAt e.name
    if atIdx ≤ 0 then none
    else
      let dirPkg := String.mk (e.name.data.take atIdx.toNat)
      let dirVersion := String.mk (e.name.data.drop (atIdx.toNat + 1))
      let remove :=
        if !(packages.contains dirPkg) then true
        else
          match lookupAssoc lock dirPkg with
          | none => true
          | some lockVer => lockVer = "" || lockVer ≠ dirVersion
      if remove then some e.name else none

/-- The set of entry names `prune` removes from the output root. -/
def pruneRemoved (entries : List DirEntry) (packages : List String)
    (lock : List (String × String)) : List String :=
  entries.filterMap (pruneCheck packages lock)

/-! Section fetcher.ts : GitHubClient -/

/-- An HTTP response as observed through `fetchWithRetry`: final status and
body text.  The network is modelled as a deterministic oracle
`String → HttpResp` from URL to response; for such an oracle the retry loop
is transparent (it returns the URL's response), so the fetcher definitions
consult the oracle directly. -/
structure HttpResp where
  status : Nat
  body : String
deriving DecidableEq

/-- Model of `Response.ok`: status in the range 200–299. -/
def respOk (r : HttpResp) : Bool := 200 ≤ r.status && r.status < 300

/-- Model of `ResolvedRef` from `fetcher.ts`. -/
structure ResolvedRef where
  gitRef : String
  isFallback : Bool
deriving DecidableEq

/-- Model of `FetchedFile` from `fetcher.ts`. -/
structure FetchedFile where
  path : String
  content : String
deriving DecidableEq

/-- Characters `encodeURIComponent` leaves unescaped. -/
def uriUnreserved (c : Char) : Bool :=
  (48 ≤ c.toNat && c.toNat ≤ 57) || (65 ≤ c.toNat && c.toNat ≤ 90) ||
  (97 ≤ c.toNat && c.toNat ≤ 122) ||
  c = '-' || c = '_' || c = '.' || c = '!' || c = '~' || c = '*' ||
  c = Char.ofNat 39 || c = '(' || c = ')'

/-- Uppercase hex digit. -/
def hexDigitUpper (n : Nat) : Char :=
  if n < 10 then Char.ofNat (48 + n) else Char.ofNat (55 + n)

/-- UTF-8 encoding of one character (code point to 1–4 bytes). -/
def utf8EncodeChar (c : Char) : List Nat :=
  let n := c.toNat
  if n < 0x80 then [n]
  else if n < 0x800 then [0xC0 + n / 64, 0x80 + n % 64]
  else if n < 0x10000 then [0xE0 + n / 4096, 0x80 + n / 64 % 64, 0x80 + n % 64]
  else [0xF0 + n / 262144, 0x80 + n / 4096 % 64, 0x80 + n / 64 % 64, 0x80 + n % 64]

/-- UTF-8 encoding of a character list. -/
def utf8Encode (cs : List Char) : List Nat :=
  cs.foldr (fun c acc => utf8EncodeChar c ++ acc) []

/-- Model of `encodeURIComponent`: percent-encode every UTF-8 byte of every character
outside the unreserved set. -/
def encodeURIComponentStr (s : String) : String :=
  String.mk (s.data.foldr
    (fun c acc =>
      if uriUnreserved c then c :: acc
      else (utf8EncodeChar c).foldr
        (fun b acc2 => '%' :: hexDigitUpper (b / 16) :: hexDigitUpper (b % 16) :: acc2)
        acc)
    [])

/-- The `git/ref` probe URL of `refExists`. -/
def refApiUrl (repo target : String) : String :=
  "https://api.github.com/repos/" ++ repo ++ "/git/ref/" ++ target

/-- Model of `GitHubClient.refExists`: strip a leading `refs/`, then probe
`heads/<ref>` and `tags/<ref>` (or the ref verbatim when it already contains
a slash) until one responds ok. -/
def refExists (http : String → HttpResp) (repo ref : String) : Bool :=
  let normalized := stripLeadingRefs ref
  let targets :=
    if strContainsSub "/" normalized then [normalized]
    else ["heads/" ++ normalized, "tags/" ++ normalized]
  targets.any (fun t => respOk (http (refApiUrl repo t)))

/-- Model of `GitHubClient.resolveRef` from `fetcher.ts`: probe the candidate tags
`v<version>` and `<version>` in order, then the default branches `main` and
`master`, else fail with `NO_REF`.  The `_name` parameter is accepted and
ignored, exactly as in the source. -/
def resolveRef (http : String → HttpResp) (repo _name version : String) :
    Except String ResolvedRef :=
  let candidates := ["v" ++ version, version]
  match candidates.find? (fun r => refExists http repo r) with
  | some r => .ok ⟨stripRefsTags r, false⟩
  | none =>
    if refExists http repo "main" then .ok ⟨"main", true⟩
    else if refExists http repo "master" then .ok ⟨"master", true⟩
    else .error "NO_REF"

/-- Modelled from the claim's words (refinement reference, not from the
source): resolve by probing `v<version>`, `<version>`, `<name>-v<version>`,
`<name>-<version>`, then the default branches, else `NO_REF`. -/
def resolveRefClaimed (http : String → HttpResp) (repo name version : String) :
    Except String ResolvedRef :=
  let candidates :=
    ["v" ++ version, version, name ++ "-v" ++ version, name ++ "-" ++ version]
  match candidates.find? (fun r => refExists http repo r) with
  | some r => .ok ⟨stripRefsTags r, false⟩
  | none =>
    if refExists http repo "main" then .ok ⟨"main", true⟩
    else if refExists http repo "master" then .ok ⟨"master", true⟩
    else .error "NO_REF"

/-- Modelled from the amended claim's words: the two candidate tags
`v<version>` and `<version>` in order, then `main`, then `master`, else
`NO_REF`; the package name plays no part. -/
def resolveRefAmended (http : String → HttpResp) (repo version : String) :
    Except String ResolvedRef :=
  if refExists http repo ("v" ++ version) then .ok ⟨stripRefsTags ("v" ++ version), false⟩
  else if refExists http repo version then .ok ⟨stripRefsTags version, false⟩
  else if refExists http repo "main" then .ok ⟨"main", true⟩
  else if refExists http repo "master" then .ok ⟨"master", true⟩
  else .error "NO_REF"

/-- The raw-content URL of `fetchRaw`. -/
def rawFileUrl (repo ref filePath : String) : String :=
  "https://raw.githubusercontent.com/" ++ repo ++ "/" ++
    encodeURIComponentStr ref ++ "/" ++ filePath

/-- Model of `GitHubClient.fetchRaw`: 404 yields `none` (the file is skipped); any
other non-ok status throws a classified `GITHUB_*` error; an ok response
yields the body. -/
def fetchRaw (http : String → HttpResp) (repo ref filePath : String) :
    Except String (Option String) :=
  let resp := http (rawFileUrl repo ref filePath)
  if resp.status = 404 then .ok none
  else if !(respOk resp) then
    .error ("GITHUB_" ++ upperStr (classifyHttpError resp.status))
  else .ok (some resp.body)

/-- Model of `GitHubClient.fetchExplicitFiles`: fetch each listed path in order,
keeping the files whose fetch returned content and dropping those that
returned `null` (HTTP 404); the first thrown error aborts. -/
def fetchExplicitFiles (http : String → HttpResp) (repo ref : String) :
    List String → Except String (List FetchedFile)
  | [] => .ok []
  | file :: rest =>
    match fetchRaw http repo ref file with
    | .error e => .error e
    | .ok none => fetchExplicitFiles http repo ref rest
    | .ok (some content) =>
      match fetchExplicitFiles http repo ref rest with
      | .error e => .error e
      | .ok out => .ok (⟨file, content⟩ :: out)

/-! Section commands/sync.ts : GitHub primary fetch with npm-tarball fallback -/

/-- The error info extracted by `toErrorInfo` (the classified code of an
`AiDocsError`, `none` for a plain error). -/
structure AiErr where
  code : Option String
deriving DecidableEq

/-- Outcome of the GitHub-source branch of one sync task (`cmdSync`,
`sync.ts` lines 289–333): final task status, error code, whether the npm
fallback adapter was invoked, the resolved reference recorded for saving,
and the fetched files. -/
structure StepOut where
  status : String
  errorCode : Option String
  usedFallback : Bool
  resolved : ResolvedRef
  files : List FetchedFile
deriving DecidableEq

/-- The GitHub-source branch of a sync task: on any thrown primary error the
npm-tarball fallback runs; if it also fails the task errors with the primary
code (falling back to the npm code); a successful fetch with an empty file
list is skipped without invoking the fallback. -/
def syncGithubStep (primary : Except AiErr (ResolvedRef × List FetchedFile))
    (npm : Except AiErr (List FetchedFile)) : StepOut :=
  match primary with
  | .ok (r, fs) =>
    if fs.isEmpty then ⟨"skipped", none, false, r, fs⟩
    else ⟨"synced", none, false, r, fs⟩
  | .error e =>
    match npm with
    | .error e2 => ⟨"error", jsOrOpt e.code e2.code, true, ⟨"lockfile", false⟩, []⟩
    | .ok nf =>
      if nf.isEmpty then ⟨"skipped", none, true, ⟨"npm-tarball", true⟩, nf⟩
      else ⟨"synced", none, true, ⟨"npm-tarball", true⟩, nf⟩

/-- The primary GitHub fetch of a sync task with explicit `files`
(`sync.ts`: `github.resolveRef` then `github.fetchExplicitFiles`), with
thrown `AiDocsError`s converted by `toErrorInfo`. -/
def githubPrimaryExplicit (http : String → HttpResp) (repo nm version : String)
    (files : List String) : Except AiErr (ResolvedRef × List FetchedFile) :=
  match resolveRef http repo nm version with
  | .error c => .error ⟨some c⟩
  | .ok r =>
    match fetchExplicitFiles http repo r.gitRef files with
    | .error c => .error ⟨some c⟩
    | .ok fs => .ok (r, fs)

/-! Section config-hash.ts : computeConfigHash -/

/-- Model of `PackageConfig` from `config.ts`: optional fields are `Option`s. -/
structure PackageConfig where
  repo : String
  subpath : Option String
  files : Option (List String)
  ai_notes : Option String
deriving DecidableEq

/-- Split a character list on a separator character (JavaScript
`String.prototype.split` with a single-character separator). -/
def splitOnCharAux (sep : Char) : List Char → List Char → List (List Char)
  | [], acc => [acc.reverse]
  | c :: rest, acc =>
    if c = sep then acc.reverse :: splitOnCharAux sep rest []
    else splitOnCharAux sep rest (c :: acc)

/-- Model of `s.split(sep)` on character lists. -/
def splitOnChar (sep : Char) (l : List Char) : List (List Char) :=
  splitOnCharAux sep l []

/-- Model of `parts.join(sep)` on character lists. -/
def joinChar (sep : Char) : List (List Char) → List Char
  | [] => []
  | [p] => p
  | p :: rest => p ++ sep :: joinChar sep rest

/-- Model of `normalizeSubpath` from `config-hash.ts`: falsy subpath maps to the empty
string; otherwise replace every backslash by a slash, split on `/`, drop
empty segments, and re-join with `/`. -/
def normalizeSubpath (subpath : Option String) : String :=
  match subpath with
  | none => ""
  | some s =>
    if s = "" then ""
    else
      let replaced := s.data.map (fun c => if c = '\\' then '/' else c)
      String.mk (joinChar '/' ((splitOnChar '/' replaced).filter (fun p => p ≠ [])))

/-- Model of `normalizeFiles` from `config-hash.ts`: an absent list maps to `[]`;
otherwise sort a copy.  The `localeCompare` comparator is modelled as
code-point lexicographic order on the character lists. -/
def normalizeFiles (files : Option (List String)) : List (List Char) :=
  match files with
  | none => []
  | some l => List.insertionSort (· ≤ ·) (l.map (fun s => s.data))

/-- Lowercase hex digit. -/
def hexDigitLower (n : Nat) : Char :=
  if n < 10 then Char.ofNat (48 + n) else Char.ofNat (87 + n)

/-- JSON string escaping of one character (`JSON.stringify`). -/
def jsonEscapeChar (c : Char) : List Char :=
  if c = '"' then ['\\', '"']
  else if c = '\\' then ['\\', '\\']
  else if c = '\n' then ['\\', 'n']
  else if c = '\r' then ['\\', 'r']
  else if c = '\t' then ['\\', 't']
  else if c = Char.ofNat 8 then ['\\', 'b']
  else if c = Char.ofNat 12 then ['\\', 'f']
  else if c.toNat < 32 then
    ['\\', 'u', '0', '0', hexDigitLower (c.toNat / 16), hexDigitLower (c.toNat % 16)]
  else [c]

/-- A JSON string literal. -/
def jsonQuote (s : List Char) : List Char :=
  '"' :: s.foldr (fun c acc => jsonEscapeChar c ++ acc) ['"']

/-- Model of `JSON.stringify` of a list of strings. -/
def jsonStringifyList (l : List (List Char)) : List Char :=
  '[' :: (joinChar ',' (l.map jsonQuote) ++ [']'])

/-- Truncation to a 32-bit word. -/
def w32 (n : Nat) : Nat := n % 4294967296

/-- 32-bit rotate right. -/
def rotr32 (n x : Nat) : Nat := w32 ((x >>> n) ||| (x <<< (32 - n)))

/-- SHA-256 `Ch`. -/
def shaCh (x y z : Nat) : Nat := (x &&& y) ^^^ ((x ^^^ 4294967295) &&& z)

/-- SHA-256 `Maj`. -/
def shaMaj (x y z : Nat) : Nat := (x &&& y) ^^^ (x &&& z) ^^^ (y &&& z)

/-- SHA-256 `Σ0`. -/
def shaS0 (x : Nat) : Nat := rotr32 2 x ^^^ rotr32 13 x ^^^ rotr32 22 x

/-- SHA-256 `Σ1`. -/
def shaS1 (x : Nat) : Nat := rotr32 6 x ^^^ rotr32 11 x ^^^ rotr32 25 x

/-- SHA-256 `σ0`. -/
def shaG0 (x : Nat) : Nat := rotr32 7 x ^^^ rotr32 18 x ^^^ (x >>> 3)

/-- SHA-256 `σ1`. -/
def shaG1 (x : Nat) : Nat := rotr32 17 x ^^^ rotr32 19 x ^^^ (x >>> 10)

/-- SHA-256 round constants. -/
def sha256K : List Nat :=
  [1116352408, 1899447441, 3049323471, 3921009573, 961987163,
   1508970993, 2453635748, 2870763221, 3624381080, 310598401,
   607225278, 1426881987, 1925078388, 2162078206, 2614888103,
   3248222580, 3835390401, 4022224774, 264347078, 604807628,
   770255983, 1249150122, 1555081692, 1996064986, 2554220882,
   2821834349, 2952996808, 3210313671, 3336571891, 3584528711,
   113926993, 338241895, 666307205, 773529912, 1294757372,
   1396182291, 1695183700, 1986661051, 2177026350, 2456956037,
   2730485921, 2820302411, 3259730800, 3345764771, 3516065817,
   3600352804, 4094571909, 275423344, 430227734, 506948616,
   659060556, 883997877, 958139571, 1322822218, 1537002063,
   1747873779, 1955562222, 2024104815, 2227730452, 2361852424,
   2428436474, 2756734187, 3204031479, 3329325298]

/-- SHA-256 initial hash values. -/
def sha256InitH : List Nat :=
  [1779033703, 3144134277, 1013904242, 2773480762,
   1359893119, 2600822924, 528734635, 1541459225]

/-- Number of zero padding bytes for a message of the given byte length. -/
def sha256PadZeros (len : Nat) : Nat := (119 - len % 64) % 64

/-- Big-endian 8-byte encoding. -/
def be64 (n : Nat) : List Nat :=
  [n / 72057594037927936 % 256, n / 281474976710656 % 256,
   n / 1099511627776 % 256, n / 4294967296 % 256,
   n / 16777216 % 256, n / 65536 % 256, n / 256 % 256, n % 256]

/-- SHA-256 message padding. -/
def sha256Pad (msg : List Nat) : List Nat :=
  msg ++ 0x80 :: (List.replicate (sha256PadZeros msg.length) 0 ++ be64 (msg.length * 8))

/-- Split a list into chunks of `n` (fuel-driven for structural recursion). -/
def chunksOf (n : Nat) : Nat → List Nat → List (List Nat)
  | 0, _ => []
  | _ + 1, [] => []
  | fuel + 1, l => l.take n :: chunksOf n fuel (l.drop n)

/-- Group bytes into big-endian 32-bit words. -/
def bytesToWords : List Nat → List Nat
  | b0 :: b1 :: b2 :: b3 :: rest =>
    (b0 * 16777216 + b1 * 65536 + b2 * 256 + b3) :: bytesToWords rest
  | _ => []

/-- SHA-256 message schedule (64 words). -/
def sha256Schedule (ws : List Nat) : List Nat :=
  (List.range 64).foldl
    (fun acc i =>
      if i < 16 then acc ++ [ws.getD i 0]
      else
        acc ++ [w32 (shaG1 (acc.getD (i - 2) 0) + acc.getD (i - 7) 0 +
                     shaG0 (acc.getD (i - 15) 0) + acc.getD (i - 16) 0)])
    []

/-- One SHA-256 block compression. -/
def sha256Compress (hs : List Nat) (block : List Nat) : List Nat :=
  let sched := sha256Schedule (bytesToWords block)
  let st := (List.range 64).foldl
    (fun st i =>
      let a := st.getD 0 0
      let b := st.getD 1 0
      let c := st.getD 2 0
      let d := st.getD 3 0
      let e := st.getD 4 0
      let f := st.getD 5 0
      let g := st.getD 6 0
      let h := st.getD 7 0
      let t1 := w32 (h + shaS1 e + shaCh e f g + sha256K.getD i 0 + sched.getD i 0)
      let t2 := w32 (shaS0 a + shaMaj a b c)
      [w32 (t1 + t2), a, b, c, w32 (d + t1), e, f, g])
    hs
  (List.range 8).map (fun i => w32 (hs.getD i 0 + st.getD i 0))

/-- SHA-256 digest (32 bytes) of a byte list. -/
def sha256Bytes (msg : List Nat) : List Nat :=
  let padded := sha256Pad msg
  let hs := (chunksOf 64 padded.length padded).foldl sha256Compress sha256InitH
  hs.foldr
    (fun wd acc => wd / 16777216 % 256 :: wd / 65536 % 256 :: wd / 256 % 256 :: wd % 256 :: acc)
    []

/-- Lowercase hex rendering of bytes. -/
def bytesToHexLower (bs : List Nat) : List Char :=
  bs.foldr (fun b acc => hexDigitLower (b / 16) :: hexDigitLower (b % 16) :: acc) []

/-- Model of `computeConfigHash` from `config-hash.ts` (the copy with normalization):
SHA-256 over the UTF-8 bytes of the truthy `repo`, the normalized `subpath`
and the JSON rendering of the sorted `files`, hex-encoded and truncated to
16 characters.  `ai_notes` is not an input. -/
def computeConfigHash (pkgConfig : PackageConfig) : String :=
  let input := utf8Encode (jsOrStr pkgConfig.repo "").data ++
    utf8Encode (normalizeSubpath pkgConfig.subpath).data ++
    utf8Encode (jsonStringifyList (normalizeFiles pkgConfig.files))
  String.mk ((bytesToHexLower (sha256Bytes input)).take 16)

/-! Section changelog.ts : truncateChangelog.

The heading regex of `changelog.ts` is

  `/^(?:#{1,3})\s+.*?\b?\[?v?(\d+\.\d+\.\d+(?:-[\w.]+)?)\]?\b/gm`

Its backtracking semantics reduce to: at a line start, 1–3 `#` characters not
followed by a further `#`, at least one whitespace character, then — scanning
left to right from the first non-whitespace character, stopping at a line
break — the first position where `\[?v?(\d+\.\d+\.\d+(?:-[\w.]+)?)\]?\b`
matches.  With the `g` flag the search resumes after the end of each match.
-/

/-- ASCII whitespace recognised by the regex class `\s`. -/
def isWsChar (c : Char) : Bool :=
  c = ' ' || c = '\t' || c = '\n' || c = '\r' || c = Char.ofNat 11 || c = Char.ofNat 12

/-- ASCII digit (`\d`). -/
def isDigitChar (c : Char) : Bool := 48 ≤ c.toNat && c.toNat ≤ 57

/-- Word character (`\w`). -/
def isWordChar (c : Char) : Bool :=
  isDigitChar c || (65 ≤ c.toNat && c.toNat ≤ 90) || (97 ≤ c.toNat && c.toNat ≤ 122) || c = '_'

/-- Character allowed in the pre-release part (`[\w.]`). -/
def isPreChar (c : Char) : Bool := isWordChar c || c = '.'

/-- Length of the prefix on which `p` holds. -/
def countWhile (p : Char → Bool) : List Char → Nat
  | [] => 0
  | c :: rest => if p c then countWhile p rest + 1 else 0

/-- Whether the head of a list is a word character (the end of input counts
as a non-word position for `\b`). -/
def wordAtHead : List Char → Bool
  | [] => false
  | c :: _ => isWordChar c

/-- Close the match with `\]?\b`.  `after` is the input following the
capture, `lastIsWord` the word-ness of the capture's last character.
Returns the number of extra characters consumed (1 when the `]` is taken). -/
def closeBracketBoundary (after : List Char) (lastIsWord : Bool) : Option Nat :=
  match after with
  | ']' :: rest2 =>
    if wordAtHead rest2 then some 1
    else if lastIsWord then some 0 else none
  | _ => if lastIsWord != wordAtHead after then some 0 else none

/-- Backtracking over the greedy pre-release run `(?:-[\w.]+)+`: try the
lengths from `j` down to 1, closing each with `\]?\b`. -/
def tryPreLens (r2 : List Char) : Nat → Option (Nat × Nat)
  | 0 => none
  | j + 1 =>
    match closeBracketBoundary (r2.drop (j + 1)) (isWordChar (r2.getD j ' ')) with
    | some extra => some (j + 1, extra)
    | none => tryPreLens r2 j

/-- Match `\[?v?(\d+\.\d+\.\d+(?:-[\w.]+)?)\]?\b` at the head of `t`.
Returns the captured version and the number of characters consumed. -/
def versionTail (t : List Char) : Option (String × Nat) :=
  let o1 := if t.headD ' ' = '[' then 1 else 0
  let t1 := t.drop o1
  let o2 := if t1.headD ' ' = 'v' then 1 else 0
  let t2 := t1.drop o2
  let d1 := countWhile isDigitChar t2
  if d1 = 0 then none
  else
    let t3 := t2.drop d1
    if t3.headD ' ' ≠ '.' then none
    else
      let t4 := t3.drop 1
      let d2 := countWhile isDigitChar t4
      if d2 = 0 then none
      else
        let t5 := t4.drop d2
        if t5.headD ' ' ≠ '.' then none
        else
          let t6 := t5.drop 1
          let d3 := countWhile isDigitChar t6
          if d3 = 0 then none
          else
            let r := t6.drop d3
            let core := t2.take d1 ++ '.' :: t4.take d2 ++ '.' :: t6.take d3
            let coreLen := o1 + o2 + d1 + 1 + d2 + 1 + d3
            if r.headD ' ' = '-' ∧ 1 ≤ countWhile isPreChar (r.drop 1) then
              let r2 := r.drop 1
              match tryPreLens r2 (countWhile isPreChar r2) with
              | some (j, extra) =>
                some (String.mk (core ++ '-' :: r2.take j), coreLen + 1 + j + extra)
              | none =>
                match closeBracketBoundary r true with
                | some extra => some (String.mk core, coreLen + extra)
                | none => none
            else
              match closeBracketBoundary r true with
              | some extra => some (String.mk core, coreLen + extra)
              | none => none

/-- Scan `\s+.*?` forward from the first non-whitespace position, stopping at
a line break, for the first position where `versionTail` matches.  `off` is
the offset from the line start; returns the capture and the match end
offset. -/
def scanVersionFrom : List Char → Nat → Option (String × Nat)
  | [], _ => none
  | c :: rest, off =>
    if c = '\n' then none
    else
      match versionTail (c :: rest) with
      | some (v, len) => some (v, off + len)
      | none => scanVersionFrom rest (off + 1)

/-- Try the heading regex at a line start. -/
def matchHeading (s : List Char) : Option (String × Nat) :=
  let k := countWhile (fun c => c = '#') s
  if k = 0 ∨ 3 < k then none
  else
    let afterHash := s.drop k
    let w := countWhile isWsChar afterHash
    if w = 0 then none
    else scanVersionFrom (afterHash.drop w) (k + w)

/-- All regex matches with their indices (`headingRe.exec` loop of
`truncateChangelog`): try the pattern at every line start, resuming after
the end of each match. -/
def findMatchesAux : List Char → Nat → Bool → Nat → List (Nat × String)
  | _, _, _, 0 => []
  | [], _, _, _ => []
  | c :: rest, pos, atLineStart, fuel + 1 =>
    if atLineStart then
      match matchHeading (c :: rest) with
      | some (v, len) =>
        (pos, v) :: findMatchesAux ((c :: rest).drop len) (pos + len) false fuel
      | none => findMatchesAux rest (pos + 1) (c = '\n') fuel
    else findMatchesAux rest (pos + 1) (c = '\n') fuel

/-- The `matches` array of `truncateChangelog`. -/
def findMatches (content : String) : List (Nat × String) :=
  findMatchesAux content.data 0 true content.data.length

/-- Model of `parseMinor` from `truncateChangelog`: `X.Y` of `X.Y.Z…`, `null` when
there are fewer than two dot-separated parts. -/
def parseMinor (ver : String) : Option String :=
  let parts := splitOnChar '.' ver.data
  if parts.length < 2 then none
  else some (String.mk (parts.getD 0 [] ++ '.' :: parts.getD 1 []))

/-- The match loop of `truncateChangelog`: returns the chosen cut position
(if any) and the final `foundCurrent` flag. -/
def chooseCutGo (currentVersion : String) (currentMinor : Option String) :
    List (Nat × String) → Bool → Bool → Option Nat × Bool
  | [], fc, _ => (none, fc)
  | (pos, v) :: rest, fc, fp =>
    if v = currentVersion then chooseCutGo currentVersion currentMinor rest true fp
    else if fc ∧ ¬fp then
      if parseMinor v ≠ currentMinor ∨ currentMinor = none then
        chooseCutGo currentVersion currentMinor rest fc true
      else chooseCutGo currentVersion currentMinor rest fc fp
    else if fp then (some pos, fc)
    else chooseCutGo currentVersion currentMinor rest fc fp

/-- JavaScript `trimEnd` (ASCII whitespace). -/
def trimEndChars (l : List Char) : List Char := (l.reverse.dropWhile isWsChar).reverse

/-- The truncation marker appended by `truncateChangelog`. -/
def changelogMarker : String := "\n---\n\n*[Earlier entries truncated by ai-fdocs]*\n"

/-- Model of `truncateChangelog` from `changelog.ts`. -/
def truncateChangelog (content currentVersion : String) : String :=
  let ms := findMatches content
  if ms.isEmpty then content
  else
    let res := chooseCutGo currentVersion (parseMinor currentVersion) ms false false
    let cut :=
      match res.1 with
      | some p => some p
      | none =>
        if ¬res.2 ∧ 2 < ms.length then some (ms.getD 2 (0, "")).1 else none
    match cut with
    | some p => String.mk (trimEndChars (content.data.take p)) ++ changelogMarker
    | none => content

/-! Section storage.ts : file transformation and persistence -/

/-- Continuation byte. -/
def isContByte (b : Nat) : Bool := 0x80 ≤ b && b ≤ 0xBF

/-- The replacement character U+FFFD. -/
def replChar : Char := Char.ofNat 0xFFFD

/-- Valid second byte of a three-byte sequence. -/
def byte2ok3 (b b2 : Nat) : Bool :=
  if b = 0xE0 then 0xA0 ≤ b2 && b2 ≤ 0xBF
  else if b = 0xED then 0x80 ≤ b2 && b2 ≤ 0x9F
  else isContByte b2

/-- Valid second byte of a four-byte sequence. -/
def byte2ok4 (b b2 : Nat) : Bool :=
  if b = 0xF0 then 0x90 ≤ b2 && b2 ≤ 0xBF
  else if b = 0xF4 then 0x80 ≤ b2 && b2 ≤ 0x8F
  else isContByte b2

/-- UTF-8 decoding with U+FFFD replacement for invalid or truncated
sequences (`Buffer.prototype.toString("utf-8")`).  `fuel` bounds the
recursion; callers pass the byte count. -/
def utf8DecodeAux : Nat → List Nat → List Char
  | 0, _ => []
  | _ + 1, [] => []
  | fuel + 1, b :: rest =>
    if b < 0x80 then Char.ofNat b :: utf8DecodeAux fuel rest
    else if 0xC2 ≤ b && b ≤ 0xDF then
      match rest with
      | [] => [replChar]
      | b2 :: rest2 =>
        if isContByte b2 then
          Char.ofNat ((b - 0xC0) * 64 + (b2 - 0x80)) :: utf8DecodeAux fuel rest2
        else replChar :: utf8DecodeAux fuel rest
    else if 0xE0 ≤ b && b ≤ 0xEF then
      match rest with
      | [] => [replChar]
      | b2 :: rest2 =>
        if !(byte2ok3 b b2) then replChar :: utf8DecodeAux fuel rest
        else
          match rest2 with
          | [] => [replChar]
          | b3 :: rest3 =>
            if !(isContByte b3) then replChar :: utf8DecodeAux fuel rest2
            else
              Char.ofNat ((b - 0xE0) * 4096 + (b2 - 0x80) * 64 + (b3 - 0x80)) ::
                utf8DecodeAux fuel rest3
    else if 0xF0 ≤ b && b ≤ 0xF4 then
      match rest with
      | [] => [replChar]
      | b2 :: rest2 =>
        if !(byte2ok4 b b2) then replChar :: utf8DecodeAux fuel rest
        else
          match rest2 with
          | [] => [replChar]
          | b3 :: rest3 =>
            if !(isContByte b3) then replChar :: utf8DecodeAux fuel rest2
            else
              match rest3 with
              | [] => [replChar]
              | b4 :: rest4 =>
                if !(isContByte b4) then replChar :: utf8DecodeAux fuel rest3
                else
                  Char.ofNat ((b - 0xF0) * 262144 + (b2 - 0x80) * 4096 +
                      (b3 - 0x80) * 64 + (b4 - 0x80)) ::
                    utf8DecodeAux fuel rest4
    else replChar :: utf8DecodeAux fuel rest

/-- UTF-8 decoding of a byte list. -/
def utf8Decode (bytes : List Nat) : List Char := utf8DecodeAux bytes.length bytes

/-- Model of `Buffer.byteLength(s, "utf-8")`. -/
def utf8ByteLength (s : String) : Nat := (utf8Encode s.data).length

/-- Model of `flattenFilename` from `storage.ts`: replace every `/` by `__`. -/
def flattenFilename (filePath : String) : String :=
  if strContainsSub "/" filePath then
    String.mk (filePath.data.foldr
      (fun c acc => if c = '/' then '_' :: '_' :: acc else c :: acc) [])
  else filePath

/-- Last index of a character, -1 when absent. -/
def lastIndexOfCharAux (target : Char) : List Char → Nat → Int → Int
  | [], _, acc => acc
  | c :: r, i, acc => lastIndexOfCharAux target r (i + 1) (if c = target then (i : Int) else acc)

/-- Model of `path.extname`: the suffix of the basename from its last dot, empty when
there is no dot or the basename starts with its only dot. -/
def jsExtname (p : String) : String :=
  let base := (splitOnChar '/' p.data).getLastD []
  let idx := lastIndexOfCharAux '.' base 0 (-1)
  if idx ≤ 0 then "" else String.mk (base.drop idx.toNat)

/-- Model of `shouldInjectHeader` from `storage.ts`. -/
def shouldInjectHeader (filePath : String) : Bool :=
  let ext := lowerStr (jsExtname filePath)
  ext = ".md" || ext = ".html" || ext = ".htm"

/-- An ASCII apostrophe, kept out of string literals. -/
def squote : String := String.mk [Char.ofNat 39]

/-- Model of `injectHeader` from `storage.ts`; `date` stands for the
`new Date().toISOString().split("T")[0]` value. -/
def injectHeader (content ownerRepo gitRef originalPath : String)
    (isFallback : Bool) (version date : String) : String :=
  let header := "<!-- AI-FDOCS: source=github.com/" ++ ownerRepo ++ " ref=" ++ gitRef ++
    " path=" ++ originalPath ++ " fetched=" ++ date ++ " -->\n"
  let header :=
    if isFallback then
      header ++ "<!-- AI-FDOCS WARNING: No tag found for version " ++ version ++
        ". Fetched from " ++ squote ++ gitRef ++ squote ++ " branch. -->\n"
    else header
  header ++ content

/-- The size-cap truncation marker of `truncateIfNeeded`. -/
def truncMarker (maxSizeKb : Nat) : String :=
  "\n\n[TRUNCATED by ai-fdocs at " ++ natRepr maxSizeKb ++ "KB]\n"

/-- Model of `truncateIfNeeded` from `storage.ts`: content at most
`maxSizeKb * 1024` UTF-8 bytes is returned unchanged; larger content is cut
to its first `maxSizeKb * 1024` bytes (decoded back to a string) and the
marker is appended after the cut. -/
def truncateIfNeeded (content : String) (maxSizeKb : Nat) : String :=
  let maxBytes := maxSizeKb * 1024
  if utf8ByteLength content ≤ maxBytes then content
  else
    String.mk (utf8Decode ((utf8Encode content.data).take maxBytes)) ++ truncMarker maxSizeKb

/-- The per-file content pipeline of `savePackageFiles`: changelog trimming
for paths containing `changelog` (case-insensitive), then the size cap, then
header injection for markdown/HTML files. -/
def transformContent (filePath fileContent version : String) (maxFileSizeKb : Nat)
    (repo gitRef : String) (isFallback : Bool) (date : String) : String :=
  let c :=
    if strContainsSub "changelog" (lowerStr filePath) then
      truncateChangelog fileContent version
    else fileContent
  let c := truncateIfNeeded c maxFileSizeKb
  if shouldInjectHeader filePath then
    injectHeader c repo gitRef filePath isFallback version date
  else c

/-! Subsection parseMetaToml and isCachedV2 -/

/-- Model of `CrateMeta` from `storage.ts`. -/
structure CrateMeta where
  schema_version : Nat
  version : String
  git_ref : String
  fetched_at : String
  is_fallback : Bool
  config_hash : Option String
deriving DecidableEq

/-- Try the regex `<key>\s*=\s*"([^"]*)"` at the head of `s`. -/
def matchKeyStringAt (key : List Char) (s : List Char) : Option String :=
  if key.isPrefixOf s then
    let rest := (s.drop key.length).dropWhile isWsChar
    match rest with
    | '=' :: rest2 =>
      match rest2.dropWhile isWsChar with
      | '"' :: rest4 =>
        let captured := rest4.takeWhile (fun c => c ≠ '"')
        if captured.length < rest4.length then some (String.mk captured) else none
      | _ => none
    | _ => none
  else none

/-- First match of `<key>\s*=\s*"([^"]*)"` anywhere in the text. -/
def scanKeyString (key : List Char) : List Char → Option String
  | [] => none
  | c :: rest =>
    match matchKeyStringAt key (c :: rest) with
    | some v => some v
    | none => scanKeyString key rest

/-- Try the regex `<key>\s*=\s*(true|false)` at the head of `s`. -/
def matchKeyBoolAt (key : List Char) (s : List Char) : Option Bool :=
  if key.isPrefixOf s then
    let rest := (s.drop key.length).dropWhile isWsChar
    match rest with
    | '=' :: rest2 =>
      let rest3 := rest2.dropWhile isWsChar
      if "true".data.isPrefixOf rest3 then some true
      else if "false".data.isPrefixOf rest3 then some false
      else none
    | _ => none
  else none

/-- First match of `<key>\s*=\s*(true|false)` anywhere in the text. -/
def scanKeyBool (key : List Char) : List Char → Option Bool
  | [] => none
  | c :: rest =>
    match matchKeyBoolAt key (c :: rest) with
    | some v => some v
    | none => scanKeyBool key rest

/-- Digits to a number (`Number` on a digit string). -/
def digitsToNat (l : List Char) : Nat :=
  l.foldl (fun acc c => acc * 10 + (c.toNat - 48)) 0

/-- Try the regex `schema_version\s*=\s*(\d+)` at the head of `s`. -/
def matchSchemaAt (s : List Char) : Option Nat :=
  if "schema_version".data.isPrefixOf s then
    let rest := (s.drop 14).dropWhile isWsChar
    match rest with
    | '=' :: rest2 =>
      let rest3 := rest2.dropWhile isWsChar
      let digits := rest3.takeWhile isDigitChar
      if digits.isEmpty then none else some (digitsToNat digits)
    | _ => none
  else none

/-- First match of `schema_version\s*=\s*(\d+)` anywhere in the text. -/
def scanSchema : List Char → Option Nat
  | [] => none
  | c :: rest =>
    match matchSchemaAt (c :: rest) with
    | some v => some v
    | none => scanSchema rest

/-- Model of `parseMetaToml` from `storage.ts`. -/
def parseMetaToml (raw : String) : CrateMeta :=
  { schema_version := (scanSchema raw.data).getD 1
    version := (scanKeyString "version".data raw.data).getD ""
    git_ref := (scanKeyString "git_ref".data raw.data).getD ""
    fetched_at := (scanKeyString "fetched_at".data raw.data).getD ""
    is_fallback := scanKeyBool "is_fallback".data raw.data = some true
    config_hash := scanKeyString "config_hash".data raw.data }

/-- The file system is an association list `path ↦ content`; later entries
shadow earlier ones. -/
abbrev Fs := List (String × String)

/-- Read a file: the latest write to the path wins. -/
def lookupLast (fs : Fs) (p : String) : Option String :=
  (fs.reverse.find? (fun e => e.1 = p)).map (fun e => e.2)

/-- The package directory `<outputDir>/<name>@<version>`. -/
def pkgDirOf (outputDir packageName version : String) : String :=
  outputDir ++ "/" ++ packageName ++ "@" ++ version

/-- The metadata path `<pkgDir>/.aifd-meta.toml`. -/
def metaPathOf (outputDir packageName version : String) : String :=
  pkgDirOf outputDir packageName version ++ "/.aifd-meta.toml"

/-- Model of `isCachedV2` from `storage.ts`: a missing or unreadable metadata file is
a miss; a version mismatch is a miss; a truthy `config_hash` must equal the
current fingerprint; otherwise (absent or empty `config_hash`) the package
counts as cached.  `schema_version` is parsed but not consulted. -/
def isCachedV2 (fs : Fs) (outputDir packageName version configHash : String) : Bool :=
  match lookupLast fs (metaPathOf outputDir packageName version) with
  | none => false
  | some raw =>
    let meta := parseMetaToml raw
    if meta.version ≠ version then false
    else
      match meta.config_hash with
      | some h => if h ≠ "" then h = configHash else true
      | none => true

/-! Subsection savePackageFiles as a sequence of file-system operations -/

/-- The file-system effects issued by `savePackageFiles`. -/
inductive FsOp where
  | removeDirRec (dir : String)
  | makeDir (dir : String)
  | writeFile (path content : String)
deriving DecidableEq

/-- Whether `path` lies strictly inside `dir`. -/
def underDir (dir path : String) : Bool := (dir ++ "/").data.isPrefixOf path.data

/-- Apply one operation: `rmSync(dir, {recursive: true})` removes every file
under the directory; `mkdirSync` does not affect file contents;
`writeFileSync` records the new content (later entries shadow earlier
ones). -/
def applyOp (fs : Fs) : FsOp → Fs
  | .removeDirRec d => fs.filter (fun e => !(underDir d e.1))
  | .makeDir _ => fs
  | .writeFile p c => fs ++ [(p, c)]

/-- Apply a sequence of operations. -/
def applyOps (fs : Fs) (ops : List FsOp) : Fs := ops.foldl applyOp fs

/-- Model of `existsSync` for a package directory, modelled as the directory holding
at least one file (a committed package directory always does). -/
def dirNonEmpty (fs : Fs) (d : String) : Bool := fs.any (fun e => underDir d e.1)

/-- The `.aifd-meta.toml` contents written by `savePackageFiles`. -/
def metaFileContent (version : String) (resolved : ResolvedRef)
    (configHash date : String) : String :=
  "schema_version = 2\n" ++
  "version = \"" ++ version ++ "\"\n" ++
  "git_ref = \"" ++ resolved.gitRef ++ "\"\n" ++
  "fetched_at = \"" ++ date ++ "\"\n" ++
  "is_fallback = " ++ (if resolved.isFallback then "true" else "false") ++ "\n" ++
  "config_hash = \"" ++ configHash ++ "\"\n"

/-- The operation sequence of `savePackageFiles` (`storage.ts` lines
376–419): remove the existing final directory, recreate it, write each
transformed file directly into it, then write the metadata file.  `date`
stands for the fetch date. -/
def savePackageFilesOps (fs : Fs) (outputDir packageName version : String)
    (resolved : ResolvedRef) (fetchedFiles : List FetchedFile)
    (pkgConfig : PackageConfig) (maxFileSizeKb : Nat) (configHash date : String) :
    List FsOp :=
  let pkgDir := pkgDirOf outputDir packageName version
  (if dirNonEmpty fs pkgDir then [.removeDirRec pkgDir] else []) ++
  .makeDir pkgDir ::
  (fetchedFiles.map (fun f =>
    FsOp.writeFile (pkgDir ++ "/" ++ flattenFilename f.path)
      (transformContent f.path f.content version maxFileSizeKb pkgConfig.repo
        resolved.gitRef resolved.isFallback date)) ++
  [.writeFile (pkgDir ++ "/.aifd-meta.toml") (metaFileContent version resolved configHash date)])

/-! Subsection Concrete changelog inputs (from the spec scenario and the repo's
test suite) -/

/-- The changelog of spec scenario 4 (also the first `truncateChangelog`
test). -/
def exChangelogA : String :=
  "# Changelog\n\n## [0.13.1] - 2024-01-15\n- Fix bug\n\n## [0.13.0] - 2024-01-01\n- New feature\n\n## [0.12.0] - 2023-12-01\n- Old feature\n\n## [0.11.0] - 2023-11-01\n- Ancient feature\n"

/-- The changelog of the second `truncateChangelog` test: the previous minor
series `2.0` has two entries, `v2.0.1` and `v2.0.0`. -/
def exChangelogB : String :=
  "# My Lib\n\n### v2.1.0\n- minor\n\n## v2.0.1\n- patch\n\n# v2.0.0\n- major\n\n## v1.9.0\n- previous minor\n"

/-- Content with no version headings. -/
def exNoVersions : String := "Just some text without versions."


/-! Subsection Concrete inputs used by the claim theorems and witnesses -/

/-- An endpoint that always answers HTTP 500. -/
def oracleAll500 : Nat → FetchOutcome := fun _ => .status 500

/-- A repository state where the only existing reference is the tag
`pkg-v1.0.0` (no `v1.0.0` or `1.0.0` tag, no `main` or `master` branch). -/
def httpTagOnly : String → HttpResp := fun url =>
  if url = refApiUrl "o/r" "tags/pkg-v1.0.0" then ⟨200, "ok"⟩ else ⟨404, "missing"⟩

/-- The tag `v1.0.0` exists; the listed file `A.md` is absent (404) at the
resolved reference while `B.md` is present. -/
def httpFor404AB : String → HttpResp := fun url =>
  if url = refApiUrl "o/r" "tags/v1.0.0" then ⟨200, "ok"⟩
  else if url = rawFileUrl "o/r" "v1.0.0" "B.md" then ⟨200, "hello"⟩
  else ⟨404, "missing"⟩

/-- The tag `v1.0.0` exists but every raw-content download is rejected with
HTTP 401. -/
def httpAuth401 : String → HttpResp := fun url =>
  if url = refApiUrl "o/r" "tags/v1.0.0" then ⟨200, "ok"⟩ else ⟨401, "denied"⟩

/-- A successful npm-tarball fallback result. -/
def npmOkFiles : Except AiErr (List FetchedFile) := .ok [⟨"README.md", "readme"⟩]

/-- Metadata with a future `schema_version = 3` and a matching version and
fingerprint. -/
def exMetaSchema3 : String :=
  "schema_version = 3\nversion = \"1.0.0\"\ngit_ref = \"v1.0.0\"\nfetched_at = \"2026-01-01\"\nis_fallback = false\nconfig_hash = \"abcd\"\n"

/-- An output directory holding `exMetaSchema3` for `pkg@1.0.0`. -/
def exFsSchema3 : Fs := [(metaPathOf "out" "pkg" "1.0.0", exMetaSchema3)]

/-- Legacy metadata without a `config_hash` field. -/
def exMetaNoHash : String :=
  "version = \"1.0.0\"\ngit_ref = \"v1.0.0\"\nfetched_at = \"2026-01-01\"\nis_fallback = false\n"

/-- An output directory holding `exMetaNoHash` for `pkg@1.0.0`. -/
def exFsNoHash : Fs := [(metaPathOf "out" "pkg" "1.0.0", exMetaNoHash)]

/-- 1024 bytes of ASCII content (exactly `1 * max_file_size_kb * 1024` for
`max_file_size_kb = 1`). -/
def exContent1024 : String := String.mk (List.replicate 1024 'a')

/-- 1025 bytes of ASCII content (one byte over the 1 KB cap). -/
def exContent1025 : String := String.mk (List.replicate 1025 'a')

/-- A package entry with unsorted files, a decorated subpath and one
`ai_notes` text. -/
def exPkgP : PackageConfig :=
  ⟨"lodash/lodash", some "/docs\\api/", some ["b.md", "a.md"], some "v1"⟩

/-- The same entry with `ai_notes` changed, the files reordered, and the
subpath written in normalized form. -/
def exPkgQ : PackageConfig :=
  ⟨"lodash/lodash", some "docs/api", some ["a.md", "b.md"], some "v2"⟩

/-- A previously committed `pkg@1.0.0` directory. -/
def exOldFs : Fs :=
  [("out/pkg@1.0.0/old.md", "old content"),
   ("out/pkg@1.0.0/.aifd-meta.toml", "schema_version = 2\n")]

/-- Two fetched files for the recommit. -/
def exFetched : List FetchedFile := [⟨"a.md", "AAA"⟩, ⟨"b.md", "BBB"⟩]

/-- A minimal package entry. -/
def exPkgCfg : PackageConfig := ⟨"o/r", none, none, none⟩

/-- The operation sequence of the recommit of `pkg@1.0.0` over `exOldFs`. -/
def exSaveOps : List FsOp :=
  savePackageFilesOps exOldFs "out" "pkg" "1.0.0" ⟨"v1.0.0", false⟩ exFetched
    exPkgCfg 512 "h" "2026-10-11"

/-- An output root with the global index file, a versioned package
directory, a directory without `@`, and a scoped directory with `@` at
index 0. -/
def exRootEntries : List DirEntry :=
  [⟨"_INDEX.md", false⟩, ⟨"lodash@4.17.21", true⟩, ⟨"notes", true⟩, ⟨"@scoped", true⟩]

/-- The writes a `savePackageFiles` run issues, as `path ↦ content` pairs;
`lastHit` reads the last write to a path. -/
def lastHit (ws : List (String × String)) (q : String) : Option String :=
  match ws with
  | [] => none
  | (p, c) :: rest =>
    match lastHit rest q with
    | some v => some v
    | none => if p = q then some c else none

/-! Section Theorems -/

/-- C10: `prune` only ever removes entries that are directories whose name
has an `@` at an index greater than 0; when the root's entry names are
distinct (as they are on a real file system), every plain file — including
`_INDEX.md` — and every directory without such an `@` is left untouched. -/
theorem prune_removes_only_versioned_dirs
    (entries : List DirEntry) (packages : List String) (lock : List (String × String)) :
    (∀ nm ∈ pruneRemoved entries packages lock,
      ∃ e ∈ entries, e.name = nm ∧ e.isDir = true ∧ 0 < lastIndexOfAt e.name) ∧
    ((entries.map (fun e => e.name)).Nodup →
      ∀ e ∈ entries, (e.isDir = false ∨ lastIndexOfAt e.name ≤ 0) →
        e.name ∉ pruneRemoved entries packages lock) := by
  have iteKey : ∀ {c : Prop} [inst : Decidable c] {a b : String},
      (if c then some a else none) = some b → a = b := by
    intro c inst a b h
    split at h
    · exact Option.some.inj h
    · exact absurd h (by simp)
  have key : ∀ (e : DirEntry) (nm : String), pruneCheck packages lock e = some nm →
      e.name = nm ∧ e.isDir = true ∧ 0 < lastIndexOfAt e.name := by
    intro e nm h
    simp only [pruneCheck] at h
    by_cases hd : e.isDir
    · by_cases hat : lastIndexOfAt e.name ≤ 0
      · simp [hd, hat] at h
      · rw [if_neg (show ¬((!e.isDir) = true) by simp [hd]), if_neg hat] at h
        exact ⟨iteKey h, hd, by omega⟩
    · simp [hd] at h
  constructor
  · intro nm hmem
    rw [pruneRemoved, List.mem_filterMap] at hmem
    obtain ⟨e, he, hfe⟩ := hmem
    exact ⟨e, he, key e nm hfe⟩
  · intro hnodup e he hbad hmem
    rw [pruneRemoved, List.mem_filterMap] at hmem
    obtain ⟨e2, he2, hfe2⟩ := hmem
    obtain ⟨hname, hdir, hat⟩ := key e2 e.name hfe2
    have heq : e2 = e := List.inj_on_of_nodup_map hnodup he2 he hname
    subst heq
    rcases hbad with h | h
    · rw [hdir] at h; exact Bool.noConfusion h
    · omega

/-- C10 witness: in a root with `_INDEX.md`, `lodash@4.17.21`, `notes` and
`@scoped`, the plain file `_INDEX.md` is never pruned. -/
theorem prune_removes_only_versioned_dirs_witness :
    "_INDEX.md" ∉ pruneRemoved exRootEntries [] [] :=
  (prune_removes_only_versioned_dirs exRootEntries [] []).2 (by decide)
    ⟨"_INDEX.md", false⟩ (by decide) (Or.inl rfl)

/-- C5 counterexample: under the default options the backoff delays are
250 ms then 500 ms (`baseDelayMs = 250`), not the claimed 500 ms then
1000 ms; shown on an endpoint that always answers 500. -/
theorem fetchWithRetry_backoff_counterexample :
    (fetchWithRetryDefault oracleAll500).delays = [250, 500] ∧
    (fetchWithRetryDefault oracleAll500).delays ≠ [500, 1000] ∧
    (fetchWithRetryDefault oracleAll500).used = 3 ∧
    (fetchWithRetryDefault oracleAll500).result = .ok 500 := by decide

/-- The value returned for the outcome of a final (non-retried) attempt. -/
def finalResult : FetchOutcome → Except String Nat
  | .status s => .ok s
  | .thrown => .error "NETWORK"

/-- Case characterization of `fetchWithRetry` under default options. -/
theorem fetchDefault_cases (oracle : Nat → FetchOutcome) :
    fetchWithRetryDefault oracle =
      if retriableOutcome (oracle 0) = true then
        (if retriableOutcome (oracle 1) = true then
          ⟨finalResult (oracle 2), [250, 500], 3⟩
        else ⟨finalResult (oracle 1), [250], 2⟩)
      else ⟨finalResult (oracle 0), [], 1⟩ := by
  rcases h0 : oracle 0 with s0 | _ <;>
    rcases h1 : oracle 1 with s1 | _ <;>
    rcases h2 : oracle 2 with s2 | _ <;>
    simp only [fetchWithRetryDefault, fetchRetryAux, retriableOutcome, finalResult,
      h0, h1, h2] <;>
    first
      | rfl
      | (by_cases hc0 : s0 ∈ DEFAULT_RETRY_STATUSES <;>
          by_cases hc1 : s1 ∈ DEFAULT_RETRY_STATUSES <;>
          simp [hc0, hc1])
      | (by_cases hc0 : s0 ∈ DEFAULT_RETRY_STATUSES <;> simp [hc0])
      | (by_cases hc1 : s1 ∈ DEFAULT_RETRY_STATUSES <;> simp [hc1])
      | simp

/-- C5 amended: with default options at most 3 attempts are made; a retry
happens exactly when the attempt throws or returns a status in
{408, 425, 429, 500, 502, 503, 504} (so never another 4xx — the retry set's
only 4xx members are 408, 425 and 429); and the delays before the retries
follow the exponential schedule 250 ms then 500 ms. -/
theorem fetchWithRetry_amended (oracle : Nat → FetchOutcome) :
    (1 ≤ (fetchWithRetryDefault oracle).used ∧ (fetchWithRetryDefault oracle).used ≤ 3) ∧
    (fetchWithRetryDefault oracle).delays =
      (List.range ((fetchWithRetryDefault oracle).used - 1)).map (fun i => 250 * 2 ^ i) ∧
    (∀ i, i + 1 < (fetchWithRetryDefault oracle).used →
      retriableOutcome (oracle i) = true) ∧
    (∀ i, i < (fetchWithRetryDefault oracle).used → i + 1 < 3 →
      retriableOutcome (oracle i) = true → i + 1 < (fetchWithRetryDefault oracle).used) ∧
    DEFAULT_RETRY_STATUSES.filter (fun s => decide (400 ≤ s ∧ s < 500)) = [408, 425, 429] := by
  rw [fetchDefault_cases oracle]
  by_cases r0 : retriableOutcome (oracle 0) = true
  · by_cases r1 : retriableOutcome (oracle 1) = true
    · rw [if_pos r0, if_pos r1]
      refine ⟨⟨(by decide : (1 : Nat) ≤ 3), (by decide : (3 : Nat) ≤ 3)⟩,
        (by decide : ([250, 500] : List Nat) = (List.range (3 - 1)).map fun i => 250 * 2 ^ i),
        ?_, ?_, by decide⟩
      · intro i hi
        have hi2 : i + 1 < 3 := hi
        have hz : i = 0 ∨ i = 1 := by omega
        rcases hz with h | h <;> subst h
        · exact r0
        · exact r1
      · intro i _ hj _
        exact (show i + 1 < 3 from hj)
    · rw [if_pos r0, if_neg r1]
      refine ⟨⟨(by decide : (1 : Nat) ≤ 2), (by decide : (2 : Nat) ≤ 3)⟩,
        (by decide : ([250] : List Nat) = (List.range (2 - 1)).map fun i => 250 * 2 ^ i),
        ?_, ?_, by decide⟩
      · intro i hi
        have hi2 : i + 1 < 2 := hi
        have hz : i = 0 := by omega
        subst hz
        exact r0
      · intro i hi hj hr
        have hi2 : i < 2 := hi
        have hz : i = 0 ∨ i = 1 := by omega
        rcases hz with h | h <;> subst h
        · exact (show 0 + 1 < 2 by decide)
        · exact absurd hr r1
  · rw [if_neg r0]
    refine ⟨⟨Nat.le_refl 1, (by decide : (1 : Nat) ≤ 3)⟩,
      (by decide : ([] : List Nat) = (List.range (1 - 1)).map fun i => 250 * 2 ^ i),
      ?_, ?_, by decide⟩
    · intro i hi
      have hi2 : i + 1 < 1 := hi
      omega
    · intro i hi hj hr
      have hi2 : i < 1 := hi
      have hz : i = 0 := by omega
      subst hz
      exact absurd hr r0

/-- C5 amended witness: on the all-500 endpoint the first attempt is
retriable and an attempt was made. -/
theorem fetchWithRetry_amended_witness :
    retriableOutcome (oracleAll500 0) = true ∧
    1 ≤ (fetchWithRetryDefault oracleAll500).used :=
  ⟨(fetchWithRetry_amended oracleAll500).2.2.1 0 (by decide),
   (fetchWithRetry_amended oracleAll500).1.1⟩

/-- C4 counterexample: when the only existing reference is the tag
`pkg-v1.0.0`, the claimed candidate order would resolve it with
`is_fallback = false`, but `resolveRef` — which probes only `v<version>` and
`<version>` and ignores the package name — fails with `NO_REF`. -/
theorem resolveRef_candidates_counterexample :
    resolveRef httpTagOnly "o/r" "pkg" "1.0.0" = .error "NO_REF" ∧
    resolveRefClaimed httpTagOnly "o/r" "pkg" "1.0.0" = .ok ⟨"pkg-v1.0.0", false⟩ := by
  decide

/-- C4 amended: `resolveRef` probes the candidate tags `v<version>` and
`<version>` in that order, returning the first that exists with
`is_fallback = false`; otherwise it probes the default branches `main` then
`master`, returning `is_fallback = true`; otherwise it fails with `NO_REF`.
The package name takes no part in the candidates. -/
theorem resolveRef_amended_refinement (http : String → HttpResp) (repo nm version : String) :
    resolveRef http repo nm version = resolveRefAmended http repo version := by
  unfold resolveRef resolveRefAmended
  by_cases h1 : refExists http repo ("v" ++ version) <;>
    by_cases h2 : refExists http repo version <;>
    simp [List.find?, h1, h2]

/-- C6 counterexample: with `A.md` absent (HTTP 404) and `B.md` present at
the resolved reference, `fetchExplicitFiles` succeeds and silently omits
`A.md` from the returned list — the absent listed file is not a fatal
error. -/
theorem fetchExplicitFiles_404_counterexample :
    (httpFor404AB (rawFileUrl "o/r" "v1.0.0" "A.md")).status = 404 ∧
    "A.md" ∈ ["A.md", "B.md"] ∧
    fetchExplicitFiles httpFor404AB "o/r" "v1.0.0" ["A.md", "B.md"] =
      .ok [⟨"B.md", "hello"⟩] := by
  decide

/-- C6 amended: `fetchExplicitFiles` downloads each listed path in order;
a listed file answered with HTTP 404 is silently dropped from the returned
list (no error), while any other non-ok status is a fatal classified error.
When every listed file answers 2xx or 404, the result is exactly the list of
2xx files with their bodies, in listing order. -/
theorem fetchExplicitFiles_amended (http : String → HttpResp) (repo ref : String)
    (files : List String)
    (h : ∀ f ∈ files, (http (rawFileUrl repo ref f)).status = 404 ∨
      respOk (http (rawFileUrl repo ref f)) = true) :
    fetchExplicitFiles http repo ref files =
      .ok (files.filterMap (fun f =>
        if (http (rawFileUrl repo ref f)).status = 404 then none
        else some ⟨f, (http (rawFileUrl repo ref f)).body⟩)) := by
  induction files with
  | nil => rfl
  | cons f rest ih =>
    have hf := h f (List.mem_cons_self f rest)
    have hrest : ∀ g ∈ rest, (http (rawFileUrl repo ref g)).status = 404 ∨
        respOk (http (rawFileUrl repo ref g)) = true := by
      intro g hg
      exact h g (List.mem_cons_of_mem f hg)
    rcases hf with h404 | hok
    · have step : fetchExplicitFiles http repo ref (f :: rest) =
          fetchExplicitFiles http repo ref rest := by
        simp [fetchExplicitFiles, fetchRaw, h404]
      rw [step, ih hrest, List.filterMap_cons, if_pos h404]
    · have hnot404 : (http (rawFileUrl repo ref f)).status ≠ 404 := by
        intro hc
        simp [respOk, hc] at hok
      rw [List.filterMap_cons, if_neg hnot404]
      simp only [fetchExplicitFiles, fetchRaw]
      rw [if_neg hnot404, if_neg (by simp [hok]), ih hrest]

/-- C6 amended witness: the characterization evaluated on the concrete
oracle where `A.md` is absent and `B.md` present. -/
theorem fetchExplicitFiles_amended_witness :
    fetchExplicitFiles httpFor404AB "o/r" "v1.0.0" ["A.md", "B.md"] =
      .ok (["A.md", "B.md"].filterMap (fun f =>
        if (httpFor404AB (rawFileUrl "o/r" "v1.0.0" f)).status = 404 then none
        else some ⟨f, (httpFor404AB (rawFileUrl "o/r" "v1.0.0" f)).body⟩)) :=
  fetchExplicitFiles_amended httpFor404AB "o/r" "v1.0.0" ["A.md", "B.md"] (by decide)

/-- C9 counterexample: an AUTH-classified primary failure (HTTP 401 on a
file download, classified `auth`, thrown as `GITHUB_AUTH`) does trigger the
npm-tarball fallback, which then syncs the package; and a successful primary
fetch with an empty file list is skipped without running the fallback —
both contrary to the claimed eligibility set. -/
theorem fallback_auth_counterexample :
    classifyHttpError 401 = "auth" ∧
    githubPrimaryExplicit httpAuth401 "o/r" "pkg" "1.0.0" ["README.md"] =
      .error ⟨some "GITHUB_AUTH"⟩ ∧
    (syncGithubStep (githubPrimaryExplicit httpAuth401 "o/r" "pkg" "1.0.0" ["README.md"])
        npmOkFiles).usedFallback = true ∧
    (syncGithubStep (githubPrimaryExplicit httpAuth401 "o/r" "pkg" "1.0.0" ["README.md"])
        npmOkFiles).status = "synced" ∧
    (syncGithubStep (.ok (⟨"v1.0.0", false⟩, [])) npmOkFiles).usedFallback = false ∧
    (syncGithubStep (.ok (⟨"v1.0.0", false⟩, [])) npmOkFiles).status = "skipped" := by
  decide

/-- C9 amended: in the GitHub-primary branch of a sync task the npm-tarball
fallback runs exactly when the primary fetch throws — whatever the
classification, including AUTH — and a successful primary fetch with an
empty file list leads to a skipped task without invoking the fallback. -/
theorem fallback_amended (p : Except AiErr (ResolvedRef × List FetchedFile))
    (n : Except AiErr (List FetchedFile)) :
    ((syncGithubStep p n).usedFallback = true ↔ ∃ e, p = .error e) ∧
    (∀ r, p = .ok (r, []) → (syncGithubStep p n).status = "skipped" ∧
      (syncGithubStep p n).usedFallback = false) := by
  constructor
  · cases p with
    | ok pr =>
      rcases pr with ⟨r, fs⟩
      rcases fs with _ | ⟨f, rest⟩ <;> simp [syncGithubStep]
    | error e =>
      cases n with
      | ok nf =>
        rcases nf with _ | ⟨f, rest⟩ <;> simp [syncGithubStep]
      | error e2 => simp [syncGithubStep]
  · intro r hp
    subst hp
    simp [syncGithubStep]

/-- C9 amended witness: an empty primary result is skipped without
fallback. -/
theorem fallback_amended_witness :
    (syncGithubStep (.ok (⟨"main", true⟩, [])) npmOkFiles).status = "skipped" ∧
    (syncGithubStep (.ok (⟨"main", true⟩, [])) npmOkFiles).usedFallback = false :=
  (fallback_amended (.ok (⟨"main", true⟩, [])) npmOkFiles).2 ⟨"main", true⟩ rfl

/-- C2 counterexample: metadata with a future `schema_version = 3` (newer
than the supported value 2) and a matching version and fingerprint is a
cache *hit* — `isCachedV2` never reads `schema_version` — and legacy
metadata without any `config_hash` is also a hit, not an `Outdated`
package. -/
theorem isCachedV2_schema_counterexample :
    (parseMetaToml exMetaSchema3).schema_version = 3 ∧
    2 < (parseMetaToml exMetaSchema3).schema_version ∧
    (parseMetaToml exMetaSchema3).version = "1.0.0" ∧
    (parseMetaToml exMetaSchema3).config_hash = some "abcd" ∧
    isCachedV2 exFsSchema3 "out" "pkg" "1.0.0" "abcd" = true ∧
    (parseMetaToml exMetaNoHash).config_hash = none ∧
    isCachedV2 exFsNoHash "out" "pkg" "1.0.0" "ffff" = true := by
  decide

/-- C2 amended: the cache decision is — missing metadata file ⇒ miss;
parsed `version` different from the target ⇒ miss; a present non-empty
`config_hash` ⇒ hit exactly when it equals the current fingerprint; an
absent (or empty) `config_hash` with a matching version ⇒ hit.
`schema_version`, parsed or not, future or not, plays no part. -/
theorem isCachedV2_amended (fs : Fs) (out nm v h : String) :
    (lookupLast fs (metaPathOf out nm v) = none → isCachedV2 fs out nm v h = false) ∧
    (∀ raw, lookupLast fs (metaPathOf out nm v) = some raw →
      ((parseMetaToml raw).version ≠ v → isCachedV2 fs out nm v h = false) ∧
      (∀ ch, (parseMetaToml raw).version = v → (parseMetaToml raw).config_hash = some ch →
        ch ≠ "" → (isCachedV2 fs out nm v h = true ↔ ch = h)) ∧
      ((parseMetaToml raw).version = v →
        ((parseMetaToml raw).config_hash = none ∨ (parseMetaToml raw).config_hash = some "") →
        isCachedV2 fs out nm v h = true)) := by
  constructor
  · intro hmiss
    simp [isCachedV2, hmiss]
  · intro raw hraw
    refine ⟨?_, ?_, ?_⟩
    · intro hver
      simp [isCachedV2, hraw, hver]
    · intro ch hver hch hne
      simp [isCachedV2, hraw, hver, hch, hne]
    · intro hver hch
      rcases hch with hch | hch <;> simp [isCachedV2, hraw, hver, hch]

/-- C2 amended witness: on the concrete schema-3 metadata the hash-equality
case yields a hit. -/
theorem isCachedV2_amended_witness :
    isCachedV2 exFsSchema3 "out" "pkg" "1.0.0" "abcd" = true :=
  ((isCachedV2_amended exFsSchema3 "out" "pkg" "1.0.0" "abcd").2 exMetaSchema3
      (by decide)).2.1 "abcd" (by decide) (by decide) (by decide) |>.mpr rfl

/-- C8: a file whose UTF-8 byte length is exactly `max_file_size_kb * 1024`
is returned unchanged by `truncateIfNeeded`; a file one byte larger is cut
to its first `max_file_size_kb * 1024` bytes with the truncation marker
appended after the cut, so the marker bytes are not counted against the
limit. -/
theorem truncateIfNeeded_boundary (content : String) (k : Nat) (_hk : 0 < k) :
    (utf8ByteLength content = k * 1024 → truncateIfNeeded content k = content) ∧
    (utf8ByteLength content = k * 1024 + 1 →
      truncateIfNeeded content k =
        String.mk (utf8Decode ((utf8Encode content.data).take (k * 1024))) ++ truncMarker k) := by
  constructor
  · intro hlen
    rw [truncateIfNeeded, if_pos (by omega)]
  · intro hlen
    rw [truncateIfNeeded, if_neg (by omega)]

set_option maxRecDepth 40000 in
/-- C8 witness: with `max_file_size_kb = 1`, a 1024-byte file is unchanged
and a 1025-byte file is truncated with the marker. -/
theorem truncateIfNeeded_boundary_witness :
    truncateIfNeeded exContent1024 1 = exContent1024 ∧
    truncateIfNeeded exContent1025 1 =
      String.mk (utf8Decode ((utf8Encode exContent1025.data).take (1 * 1024))) ++ truncMarker 1 :=
  ⟨(truncateIfNeeded_boundary exContent1024 1 (by decide)).1 (by decide),
   (truncateIfNeeded_boundary exContent1025 1 (by decide)).2 (by decide)⟩

/-- Model of `normalizeFiles` in closed form: sort the (possibly absent) list. -/
theorem normalizeFiles_eq (o : Option (List String)) :
    normalizeFiles o =
      List.insertionSort (· ≤ ·) ((o.getD []).map (fun s => s.data)) := by
  cases o <;> rfl

/-- Sorting is invariant under permutation of the input. -/
theorem insertionSort_perm_inv (l1 l2 : List (List Char)) (h : l1.Perm l2) :
    List.insertionSort (· ≤ ·) l1 = List.insertionSort (· ≤ ·) l2 :=
  List.eq_of_perm_of_sorted
    (((List.perm_insertionSort _ l1).trans h).trans (List.perm_insertionSort _ l2).symm)
    (List.sorted_insertionSort _ l1)
    (List.sorted_insertionSort _ l2)

/-- C3: the fingerprint is a function of `repo`, the normalized `subpath`
and the multiset of `files` alone — it is invariant under any change of
`ai_notes`, any reordering of `files`, and any rewriting of `subpath` that
normalizes to the same canonical forward-slash path. -/
theorem computeConfigHash_invariance (p q : PackageConfig)
    (hrepo : p.repo = q.repo)
    (hsub : normalizeSubpath p.subpath = normalizeSubpath q.subpath)
    (hfiles : ((p.files.getD []).map (fun s => s.data)).Perm
      ((q.files.getD []).map (fun s => s.data))) :
    computeConfigHash p = computeConfigHash q := by
  have hnf : normalizeFiles p.files = normalizeFiles q.files := by
    rw [normalizeFiles_eq, normalizeFiles_eq]
    exact insertionSort_perm_inv _ _ hfiles
  rw [computeConfigHash, computeConfigHash, hrepo, hsub, hnf]

/-- C3 witness: changing `ai_notes`, reordering `files` and rewriting the
subpath `"/docs\\api/"` as `"docs/api"` leaves the fingerprint unchanged. -/
theorem computeConfigHash_invariance_witness :
    computeConfigHash exPkgP = computeConfigHash exPkgQ :=
  computeConfigHash_invariance exPkgP exPkgQ rfl (by decide) (by decide)

set_option maxRecDepth 100000 in
/-- C7 failing input (code bug): on a changelog whose previous minor series
has two entries (`v2.0.1`, `v2.0.0` — the repository's own second
`truncateChangelog` test), the code cuts after the *first* entry of the
previous series, dropping `v2.0.0`, while the claim (and the test's
`toContain("v2.0.0")` assertion) keep the whole previous minor series.
Moreover the trimming gate is `path.toLowerCase().includes("changelog")`,
not a basename match of `changelog|changes|history`: a fetched `CHANGES.md`
is persisted untrimmed and without the marker, while the spec scenario for
`CHANGELOG.md` does hold. -/
theorem truncateChangelog_divergence :
    strContainsSub "v2.0.1" (truncateChangelog exChangelogB "2.1.0") = true ∧
    strContainsSub "v2.0.0" (truncateChangelog exChangelogB "2.1.0") = false ∧
    strContainsSub "0.11.0"
      (transformContent "CHANGES.md" exChangelogA "0.13.1" 512 "o/r" "v0.13.1" false
        "2026-10-11") = true ∧
    changelogMarker.data.isSuffixOf
      (transformContent "CHANGES.md" exChangelogA "0.13.1" 512 "o/r" "v0.13.1" false
        "2026-10-11").data = false ∧
    strContainsSub "0.13.1"
      (transformContent "CHANGELOG.md" exChangelogA "0.13.1" 512 "o/r" "v0.13.1" false
        "2026-10-11") = true ∧
    strContainsSub "0.12.0"
      (transformContent "CHANGELOG.md" exChangelogA "0.13.1" 512 "o/r" "v0.13.1" false
        "2026-10-11") = true ∧
    strContainsSub "0.11.0"
      (transformContent "CHANGELOG.md" exChangelogA "0.13.1" 512 "o/r" "v0.13.1" false
        "2026-10-11") = false ∧
    changelogMarker.data.isSuffixOf
      (transformContent "CHANGELOG.md" exChangelogA "0.13.1" 512 "o/r" "v0.13.1" false
        "2026-10-11").data = true := by
  decide

/-- String append distributes over the underlying character lists. -/
theorem strData_append (s t : String) : (s ++ t).data = s.data ++ t.data := by
  cases s; cases t; rfl

/-- A list is a Boolean prefix of itself extended by anything. -/
theorem isPrefixOf_self_append (l m : List Char) : l.isPrefixOf (l ++ m) = true := by
  induction l with
  | nil => simp [List.isPrefixOf]
  | cons c rest ih => simp [List.isPrefixOf, ih]

/-- Every path of the form `<dir>/<rest>` is under the directory. -/
theorem underDir_concat (d x : String) : underDir d (d ++ "/" ++ x) = true := by
  rw [underDir, strData_append]
  exact isPrefixOf_self_append _ _

/-- Reading after a single appended write. -/
theorem lookupLast_append (s : Fs) (p c q : String) :
    lookupLast (s ++ [(p, c)]) q = if p = q then some c else lookupLast s q := by
  by_cases hpq : p = q
  · subst hpq
    simp [lookupLast]
  · simp [lookupLast, hpq]

/-- After removing a directory, nothing under it can be read. -/
theorem lookupLast_filter_under (fs : Fs) (d q : String) (h : underDir d q = true) :
    lookupLast (fs.filter (fun e => !(underDir d e.1))) q = none := by
  rw [lookupLast]
  have : (fs.filter (fun e => !(underDir d e.1))).reverse.find? (fun e => e.1 = q) = none := by
    rw [List.find?_eq_none]
    intro e he
    rw [List.mem_reverse, List.mem_filter] at he
    intro hq
    have hu : underDir d e.1 = false := by simpa using he.2
    rw [of_decide_eq_true hq, h] at hu
    exact Bool.noConfusion hu
  rw [this]
  rfl

/-- Removing a directory does not affect reads outside it. -/
theorem lookupLast_filter_keep (fs : Fs) (d q : String) (h : underDir d q = false) :
    lookupLast (fs.filter (fun e => !(underDir d e.1))) q = lookupLast fs q := by
  rw [lookupLast, lookupLast, ← List.filter_reverse]
  have : ∀ (l : Fs), (l.filter (fun e => !(underDir d e.1))).find? (fun e => e.1 = q) =
      l.find? (fun e => e.1 = q) := by
    intro l
    induction l with
    | nil => rfl
    | cons a rest ih =>
      by_cases ka : underDir d a.1
      · have hne : ¬(a.1 = q) := by
          intro hq
          rw [hq, h] at ka
          exact Bool.noConfusion ka
        rw [List.filter_cons_of_neg (by simpa using ka),
          List.find?_cons_of_neg _ (by simpa using hne), ih]
      · by_cases haq : a.1 = q
        · rw [List.filter_cons_of_pos (by simpa using ka),
            List.find?_cons_of_pos _ (by simpa using haq),
            List.find?_cons_of_pos _ (by simpa using haq)]
        · rw [List.filter_cons_of_pos (by simpa using ka),
            List.find?_cons_of_neg _ (by simpa using haq),
            List.find?_cons_of_neg _ (by simpa using haq), ih]
  rw [this]

/-- Nothing under a directory can be read when the directory is empty. -/
theorem lookupLast_none_of_empty (fs : Fs) (d q : String)
    (hne : dirNonEmpty fs d = false) (h : underDir d q = true) :
    lookupLast fs q = none := by
  rw [lookupLast]
  have : fs.reverse.find? (fun e => e.1 = q) = none := by
    rw [List.find?_eq_none]
    intro e he hq
    rw [List.mem_reverse] at he
    have : fs.any (fun e => underDir d e.1) = true :=
      List.any_eq_true.mpr ⟨e, he, by rw [of_decide_eq_true hq]; exact h⟩
    rw [dirNonEmpty] at hne
    rw [this] at hne
    exact Bool.noConfusion hne
  rw [this]
  rfl

/-- Model of `lastHit` over writes that all miss the path. -/
theorem lastHit_none_of (ws : List (String × String)) (q : String)
    (h : ∀ w ∈ ws, w.1 ≠ q) : lastHit ws q = none := by
  induction ws with
  | nil => rfl
  | cons w rest ih =>
    rw [lastHit, ih (fun x hx => h x (List.mem_cons_of_mem w hx))]
    simp [h w (List.mem_cons_self w rest)]

/-- Model of `lastHit` over appended writes: the later block wins. -/
theorem lastHit_append (a b : List (String × String)) (q : String) :
    lastHit (a ++ b) q =
      match lastHit b q with
      | some v => some v
      | none => lastHit a q := by
  induction a with
  | nil =>
    rw [List.nil_append]
    cases h : lastHit b q <;> rfl
  | cons w rest ih =>
    rw [List.cons_append, lastHit, ih, lastHit]
    cases lastHit b q <;> cases lastHit rest q <;> rfl

/-- Reading after a block of writes: the last write to the path wins, and
paths never written read as before. -/
theorem lookupLast_writes (ws : List (String × String)) (s : Fs) (q : String) :
    lookupLast (applyOps s (ws.map (fun w => FsOp.writeFile w.1 w.2))) q =
      match lastHit ws q with
      | some v => some v
      | none => lookupLast s q := by
  induction ws generalizing s with
  | nil => rfl
  | cons w rest ih =>
    rw [List.map_cons, applyOps, List.foldl_cons]
    have : applyOp s (FsOp.writeFile w.1 w.2) = s ++ [(w.1, w.2)] := rfl
    rw [this]
    have := ih (s ++ [(w.1, w.2)])
    rw [applyOps] at this
    rw [this, lastHit]
    cases lastHit rest q with
    | some v => rfl
    | none =>
      rw [lookupLast_append]
      by_cases hw : w.1 = q <;> simp [hw]

/-- String concatenation is associative. -/
theorem strAppend_assoc (a b c : String) : a ++ b ++ c = a ++ (b ++ c) := by
  cases a; cases b; cases c
  exact congrArg String.mk (List.append_assoc _ _ _)

/-- The metadata path lies inside the package directory. -/
theorem underDir_metaPath (d : String) : underDir d (d ++ "/.aifd-meta.toml") = true := by
  have h : d ++ "/.aifd-meta.toml" = d ++ "/" ++ ".aifd-meta.toml" := by
    rw [strAppend_assoc]
    congr 1
  rw [h]
  exact underDir_concat d _

/-- C1 counterexample: recommitting `pkg@1.0.0` (two fetched files) over a
previously committed directory proceeds by deleting the old directory and
writing into the final directory one file at a time.  After the first three
operations (delete, mkdir, first write) the final directory is observable
in a partially populated state: `a.md` is present, `b.md` and
`.aifd-meta.toml` are missing, and the previous contents are already
destroyed — so a crash or storage error at that point neither preserves the
previous directory nor leaves a complete new one, and no temporary sibling
directory or rename is involved (every write targets the final directory). -/
theorem savePackageFiles_atomicity_counterexample :
    FsOp.writeFile ("out/pkg@1.0.0/a.md")
        (transformContent "a.md" "AAA" "1.0.0" 512 "o/r" "v1.0.0" false "2026-10-11")
      ∈ exSaveOps ∧
    lookupLast (applyOps exOldFs (exSaveOps.take 3)) "out/pkg@1.0.0/a.md" =
      some (transformContent "a.md" "AAA" "1.0.0" 512 "o/r" "v1.0.0" false "2026-10-11") ∧
    lookupLast (applyOps exOldFs (exSaveOps.take 3)) "out/pkg@1.0.0/b.md" = none ∧
    lookupLast (applyOps exOldFs (exSaveOps.take 3)) "out/pkg@1.0.0/.aifd-meta.toml" = none ∧
    lookupLast (applyOps exOldFs (exSaveOps.take 3)) "out/pkg@1.0.0/old.md" = none ∧
    lookupLast exOldFs "out/pkg@1.0.0/old.md" = some "old content" := by
  decide

/-- C1 amended: `savePackageFiles` deletes any existing `<name>@<version>`
directory, recreates it, and writes each transformed file and then
`.aifd-meta.toml` directly into the final directory — there is no temporary
sibling directory or rename.  Consequently: paths outside the package
directory are untouched; after the run, the package directory holds exactly
the flattened transformed files plus the metadata file (last write wins);
and when the directory previously existed, the state right after the
initial delete — observable on a crash or storage error mid-commit — has
the package directory completely empty, the previous contents already
lost. -/
theorem savePackageFiles_amended (fs : Fs) (outputDir packageName version : String)
    (resolved : ResolvedRef) (fetchedFiles : List FetchedFile)
    (pkgConfig : PackageConfig) (maxKb : Nat) (configHash date : String) :
    (∀ q, underDir (pkgDirOf outputDir packageName version) q = false →
      lookupLast (applyOps fs (savePackageFilesOps fs outputDir packageName version
        resolved fetchedFiles pkgConfig maxKb configHash date)) q = lookupLast fs q) ∧
    (∀ q, underDir (pkgDirOf outputDir packageName version) q = true →
      lookupLast (applyOps fs (savePackageFilesOps fs outputDir packageName version
        resolved fetchedFiles pkgConfig maxKb configHash date)) q =
      lastHit (fetchedFiles.map (fun f =>
          (pkgDirOf outputDir packageName version ++ "/" ++ flattenFilename f.path,
           transformContent f.path f.content version maxKb pkgConfig.repo
             resolved.gitRef resolved.isFallback date)) ++
        [(pkgDirOf outputDir packageName version ++ "/.aifd-meta.toml",
          metaFileContent version resolved configHash date)]) q) ∧
    (dirNonEmpty fs (pkgDirOf outputDir packageName version) = true →
      ∀ q, underDir (pkgDirOf outputDir packageName version) q = true →
        lookupLast (applyOps fs ((savePackageFilesOps fs outputDir packageName version
          resolved fetchedFiles pkgConfig maxKb configHash date).take 1)) q = none) := by
  have hws : ∀ w ∈ (fetchedFiles.map (fun f =>
      (pkgDirOf outputDir packageName version ++ "/" ++ flattenFilename f.path,
       transformContent f.path f.content version maxKb pkgConfig.repo
         resolved.gitRef resolved.isFallback date)) ++
      [(pkgDirOf outputDir packageName version ++ "/.aifd-meta.toml",
        metaFileContent version resolved configHash date)]),
      underDir (pkgDirOf outputDir packageName version) w.1 = true := by
    intro w hw
    rcases List.mem_append.mp hw with hw | hw
    · obtain ⟨f, _, hf⟩ := List.mem_map.mp hw
      rw [← hf]
      exact underDir_concat _ _
    · rcases List.mem_singleton.mp hw with rfl
      exact underDir_metaPath _
  have hops : savePackageFilesOps fs outputDir packageName version resolved fetchedFiles
      pkgConfig maxKb configHash date =
      (if dirNonEmpty fs (pkgDirOf outputDir packageName version) then
        [FsOp.removeDirRec (pkgDirOf outputDir packageName version)] else []) ++
      (FsOp.makeDir (pkgDirOf outputDir packageName version) ::
        ((fetchedFiles.map (fun f =>
            (pkgDirOf outputDir packageName version ++ "/" ++ flattenFilename f.path,
             transformContent f.path f.content version maxKb pkgConfig.repo
               resolved.gitRef resolved.isFallback date)) ++
          [(pkgDirOf outputDir packageName version ++ "/.aifd-meta.toml",
            metaFileContent version resolved configHash date)]).map
          (fun w => FsOp.writeFile w.1 w.2))) := by
    rw [savePackageFilesOps, List.map_append, List.map_map]
    rfl
  refine ⟨?_, ?_, ?_⟩
  · intro q hq
    have hnone : lastHit (fetchedFiles.map (fun f =>
        (pkgDirOf outputDir packageName version ++ "/" ++ flattenFilename f.path,
         transformContent f.path f.content version maxKb pkgConfig.repo
           resolved.gitRef resolved.isFallback date)) ++
        [(pkgDirOf outputDir packageName version ++ "/.aifd-meta.toml",
          metaFileContent version resolved configHash date)]) q = none := by
      apply lastHit_none_of
      intro w hw hwq
      have := hws w hw
      rw [hwq, hq] at this
      exact Bool.noConfusion this
    rw [hops]
    by_cases hne : dirNonEmpty fs (pkgDirOf outputDir packageName version)
    · rw [if_pos hne, List.singleton_append]
      rw [applyOps, List.foldl_cons, List.foldl_cons]
      show lookupLast (applyOps (fs.filter _) _) q = _
      rw [lookupLast_writes, hnone, lookupLast_filter_keep _ _ _ hq]
    · rw [if_neg hne, List.nil_append]
      rw [applyOps, List.foldl_cons]
      show lookupLast (applyOps fs _) q = _
      rw [lookupLast_writes, hnone]
  · intro q hq
    rw [hops]
    by_cases hne : dirNonEmpty fs (pkgDirOf outputDir packageName version)
    · rw [if_pos hne, List.singleton_append]
      rw [applyOps, List.foldl_cons, List.foldl_cons]
      show lookupLast (applyOps (fs.filter _) _) q = _
      rw [lookupLast_writes]
      cases hh : lastHit (fetchedFiles.map (fun f =>
          (pkgDirOf outputDir packageName version ++ "/" ++ flattenFilename f.path,
           transformContent f.path f.content version maxKb pkgConfig.repo
             resolved.gitRef resolved.isFallback date)) ++
          [(pkgDirOf outputDir packageName version ++ "/.aifd-meta.toml",
            metaFileContent version resolved configHash date)]) q with
      | some v => rfl
      | none => exact lookupLast_filter_under _ _ _ hq
    · rw [if_neg hne, List.nil_append]
      rw [applyOps, List.foldl_cons]
      show lookupLast (applyOps fs _) q = _
      rw [lookupLast_writes]
      cases hh : lastHit (fetchedFiles.map (fun f =>
          (pkgDirOf outputDir packageName version ++ "/" ++ flattenFilename f.path,
           transformContent f.path f.content version maxKb pkgConfig.repo
             resolved.gitRef resolved.isFallback date)) ++
          [(pkgDirOf outputDir packageName version ++ "/.aifd-meta.toml",
            metaFileContent version resolved configHash date)]) q with
      | some v => rfl
      | none => exact lookupLast_none_of_empty _ _ _ (by simpa using hne) hq
  · intro hne q hq
    rw [hops, if_pos hne]
    show lookupLast (applyOps fs [FsOp.removeDirRec _]) q = none
    exact lookupLast_filter_under _ _ _ hq

set_option maxRecDepth 40000 in
/-- C1 amended witness: on the concrete recommit, after the initial delete
the old file is unreadable, and after the full run the metadata file holds
the written metadata. -/
theorem savePackageFiles_amended_witness :
    lookupLast (applyOps exOldFs (exSaveOps.take 1)) "out/pkg@1.0.0/old.md" = none :=
  (savePackageFiles_amended exOldFs "out" "pkg" "1.0.0" ⟨"v1.0.0", false⟩ exFetched
      exPkgCfg 512 "h" "2026-10-11").2.2 (by decide) "out/pkg@1.0.0/old.md" (by decide)

/-! Section sanity checks: the embedding evaluated on known vectors -/

/-- SHA-256 sanity check against the standard test vector for `"abc"`. -/
example :
    bytesToHexLower (sha256Bytes (utf8Encode "abc".data)) =
      "ba7816bf8f01cfea414140de5dae2223b00361a396177a9cb410ff61f20015ad".data := by
  set_option maxRecDepth 10000 in decide

set_option maxRecDepth 40000 in
example : findMatches exChangelogA =
    [(13, "0.13.1"), (49, "0.13.0"), (89, "0.12.0"), (129, "0.11.0")] := by decide

set_option maxRecDepth 40000 in
example :
    strContainsSub "0.12.0" (truncateChangelog exChangelogA "0.13.1") = true ∧
    strContainsSub "0.11.0" (truncateChangelog exChangelogA "0.13.1") = false ∧
    changelogMarker.data.isSuffixOf (truncateChangelog exChangelogA "0.13.1").data = true := by
  decide

set_option maxRecDepth 40000 in
example : truncateChangelog exNoVersions "1.0.0" = exNoVersions := by decide

set_option maxRecDepth 40000 in
example :
    strContainsSub "1.1.0" (truncateChangelog "## 1.2.0\n## 1.1.0\n## 1.0.0\n## 0.9.0" "9.9.9") = true ∧
    strContainsSub "1.0.0" (truncateChangelog "## 1.2.0\n## 1.1.0\n## 1.0.0\n## 0.9.0" "9.9.9") = false := by
  decide
